import Mathlib

/-!
Verification of the help-esb client (src/help-esb.js) against its
natural-language specification.  The JavaScript source is shallowly
embedded: JSON values become the inductive `JVal`, JavaScript objects
become association lists observed through first-match lookup, the
newline framing of `HelpEsb.Client.prototype._handleData` becomes a
function on character lists, and the stateful client operations
(`login`, `subscribe`, `_reconnect`, `_resubscribe`, `_send`,
`_handlePacket`) become explicit state-passing functions that record
the externally visible actions they perform.
-/

namespace HelpEsb

/-! ## Framed transport (`_handleData`, src/help-esb.js lines 350-365)

The source keeps a string buffer, appends each incoming chunk, and when
the buffer contains a newline it splits on `'\n'`, keeps the part after
the last newline as the new buffer, and processes every earlier segment
in order.  Strings are modelled as `List Char`. -/

/-- JavaScript `String.prototype.split('\n')`: the list of segments
between newlines.  Always nonempty; `"".split('\n') = [""]`. -/
def splitNL : List Char → List (List Char)
  | [] => [[]]
  | c :: cs =>
    if c = '\n' then [] :: splitNL cs
    else (c :: (splitNL cs).headD []) :: (splitNL cs).tail

/-- The same split presented as (complete segments before the last
newline, remainder after the last newline).  This is the pair
`(packets.slice(0, -1), packets[packets.length - 1])` the source
computes from the split. -/
def splitP : List Char → List (List Char) × List Char
  | [] => ([], [])
  | c :: cs =>
    if c = '\n' then ([] :: (splitP cs).1, (splitP cs).2)
    else
      match (splitP cs).1 with
      | [] => ([], c :: (splitP cs).2)
      | f :: fs => ((c :: f) :: fs, (splitP cs).2)

/-- `HelpEsb.Client.prototype._handleData`: append the chunk to the
buffer; if the buffer now contains a newline, split it, process every
segment before the last newline (returned in order) and keep the
remainder as the new buffer; otherwise just keep accumulating. -/
def handleData (buf data : List Char) : List (List Char) × List Char :=
  let buffer := buf ++ data
  if '\n' ∈ buffer then
    let packets := splitNL buffer
    (packets.dropLast, packets.getLastD [])
  else
    ([], buffer)

/-- Feed a list of chunks to `handleData` in order, starting from the
given buffer; returns all processed packets in order and the final
buffer. -/
def processChunks (buf : List Char) : List (List Char) → List (List Char) × List Char
  | [] => ([], buf)
  | c :: cs =>
    let step := handleData buf c
    let rest := processChunks step.2 cs
    (step.1 ++ rest.1, rest.2)

/-! ## JSON values and JavaScript objects

`JVal` models the JSON-compatible values carried in `meta` and `data`.
JavaScript objects are association lists observed through first-match
lookup; `lodash`'s `_.extend(a, b)` (keys of `b` override keys of `a`)
is represented by prepending the overriding source, so that `objGet`
finds the overriding entry first. -/

inductive JVal where
  | str : String → JVal
  | num : Int → JVal
  | bool : Bool → JVal
  | null : JVal
  | arr : List JVal → JVal
  | obj : List (String × JVal) → JVal

abbrev JObj := List (String × JVal)

/-- Property lookup on a JavaScript object (first match wins). -/
def objGet (o : JObj) (k : String) : Option JVal :=
  (o.find? (fun p => p.1 == k)).map (fun p => p.2)

/-- Property-existence test on a JavaScript object. -/
def objHas (o : JObj) (k : String) : Bool :=
  (o.find? (fun p => p.1 == k)).isSome

/-- Property assignment `o[k] = v`. -/
def objSet (o : JObj) (k : String) (v : JVal) : JObj :=
  (k, v) :: o.filter (fun p => !(p.1 == k))

/-- lodash `_.extend(a, b)`: every key of `b` overrides the same key of
`a`.  Because lookup is first-match, the overriding source is placed in
front. -/
def extendObj (a b : JObj) : JObj := b ++ a

/-- The key/value pairs of a JavaScript object in iteration order
(auxiliary: `seen` holds the keys already produced): for each key its
effective (first-match) value, each key once. -/
def dedupKeysAux (seen : List String) : JObj → JObj
  | [] => []
  | (k, v) :: rest =>
    if seen.contains k then dedupKeysAux seen rest
    else (k, v) :: dedupKeysAux (k :: seen) rest

/-- The key/value pairs of a JavaScript object in iteration order: for
each key its effective (first-match) value, each key once. -/
def dedupKeys (o : JObj) : JObj := dedupKeysAux [] o

/-- JavaScript truthiness of a JSON value (`''`, `0`, `false` and
`null` are falsy; arrays and objects are always truthy). -/
def jsTruthy : JVal → Bool
  | .str s => !(s == "")
  | .num n => !(n == 0)
  | .bool b => b
  | .null => false
  | .arr _ => true
  | .obj _ => true

/-- JavaScript `v || {}` for a possibly-undefined value `v`. -/
def jsOrObj : Option JVal → JVal
  | none => JVal.obj []
  | some v => if jsTruthy v then v else JVal.obj []

/-- lodash `_.isArray`. -/
def isArray : JVal → Bool
  | .arr _ => true
  | _ => false

/-- lodash `_.isObject`: arrays and objects are objects, primitives are
not. -/
def isObjectJS : JVal → Bool
  | .arr _ => true
  | .obj _ => true
  | _ => false

/-- The element list of an array value. -/
def arrElems : JVal → List JVal
  | .arr vs => vs
  | _ => []

/-- The property list of an object value. -/
def asObj : JVal → JObj
  | .obj o => o
  | _ => []

/-! ## Message model (`HelpEsb.Message`, src/help-esb.js lines 538-577,
and `HelpEsb.MessageBuilder`, lines 428-528) -/

/-- A raw `{meta?, data?}` structure as passed to the `Message`
constructor; either property may be absent. -/
structure RawMsg where
  meta : Option JObj := none
  data : Option JVal := none

/-- A constructed `HelpEsb.Message`: `_meta` and `_data`. -/
structure Message where
  meta : JObj
  data : JVal

/-- The `HelpEsb.Message` constructor (lines 538-541):
`_data = _.has(message, 'data') ? message.data : {}` and
`_meta = _.extend({id: uuid.v4()}, message.meta)`.  The freshly
generated uuid is passed in as `fresh`. -/
def mkMessage (fresh : String) (m : RawMsg) : Message :=
  { data := m.data.getD (JVal.obj [])
  , meta := extendObj [("id", JVal.str fresh)] (m.meta.getD []) }

/-- `Message.prototype.getMeta` for a single-segment path: lookup in
`_meta`; `undefined` is `none`. -/
def Message.getMeta (m : Message) (k : String) : Option JVal :=
  objGet m.meta k

/-- `Message.prototype.hasMeta` for a single-segment path. -/
def Message.hasMeta (m : Message) (k : String) : Bool :=
  objHas m.meta k

/-- `Client.prototype.decorateMessage` (lines 235-245): when the client
is authenticated and the login reply carries a `channelId`, set
`message.meta.from` to it; otherwise leave the message alone.  The
optional channel id is the `channelId?` argument. -/
def decorateMessage (channelId? : Option String) (m : RawMsg) : RawMsg :=
  match channelId? with
  | none => m
  | some c => { m with meta := some (objSet (m.meta.getD []) "from" (JVal.str c)) }

/-- `MessageBuilder.prototype.create` (lines 479-481): decorate, then
construct the `Message`. -/
def create (channelId? : Option String) (fresh : String) (m : RawMsg) : Message :=
  mkMessage fresh (decorateMessage channelId? m)

/-- `MessageBuilder.prototype.build` (lines 486-488):
`create({meta: meta || {}, data: data || {}})`.  The `|| {}` is
JavaScript truthiness: an absent or falsy `data` becomes `{}`. -/
def build (channelId? : Option String) (fresh : String)
    (d : Option JVal) (meta : JObj) : Message :=
  create channelId? fresh { meta := some meta, data := some (jsOrObj d) }

/-- `MessageBuilder.prototype.extend` (lines 510-528): merge any number
of message fragments.  Meta objects are `_.extend`ed left to right;
for `data`, defined values are collected, then (1) if any is an array,
all arrays are concatenated; (2) else if any is a non-object, the last
non-object wins; (3) else all objects are `_.extend`ed left to right.
The result goes through `build`. -/
def extendM (channelId? : Option String) (fresh : String)
    (params : List RawMsg) : Message :=
  let newMeta := (params.filterMap (fun p => p.meta)).foldl extendObj []
  let data := params.filterMap (fun p => p.data)
  let arrayData := data.filter isArray
  if !arrayData.isEmpty then
    build channelId? fresh (some (JVal.arr ((arrayData.map arrElems).flatten))) newMeta
  else
    let nonObjectData := data.filter (fun v => !isObjectJS v)
    if !nonObjectData.isEmpty then
      build channelId? fresh (some (nonObjectData.getLastD JVal.null)) newMeta
    else
      build channelId? fresh (some (JVal.obj ((data.map asObj).foldl extendObj []))) newMeta

/-- The data-precedence rule in the words of the specification (§3):
if any source's data is a sequence, the result is the concatenation of
all sequence data in source order; else if any source's data is a
non-structured scalar, the last such scalar wins; else all object data
are merged key by key, later overriding earlier.  Stated for comparison
with the source-derived `extendM`. -/
def specMergeData (data : List JVal) : JVal :=
  let arrayData := data.filter isArray
  if !arrayData.isEmpty then
    JVal.arr ((arrayData.map arrElems).flatten)
  else
    let nonObjectData := data.filter (fun v => !isObjectJS v)
    if !nonObjectData.isEmpty then
      nonObjectData.getLastD JVal.null
    else
      JVal.obj ((data.map asObj).foldl extendObj [])

/-! ## Authentication gate (`_authPromise` and `send`,
src/help-esb.js lines 117-129 and 416-419) -/

/-- `Client.prototype._authPromise`: the stored authentication promise
when `login` has been called, otherwise an already-rejected promise. -/
def authPromise {α : Type} (authentication : Option α) : Except String α :=
  match authentication with
  | some a => Except.ok a
  | none => Except.error "Attempted to send data through the ESB before authenticating"

/-- `Client.prototype.send` reduced to its authentication gate: the
call chains on `_authPromise()` and only on its success hands the built
`sendMessage` envelope to `_send`.  The `ok` value is the envelope that
gets transmitted; the `error` value is the rejection. -/
def clientSend {α : Type} (authentication : Option α) (envelope : Message) :
    Except String Message :=
  match authPromise authentication with
  | .ok _ => .ok envelope
  | .error e => .error e

/-! ## Reply callbacks (`_send`, src/help-esb.js lines 306-316) and the
Node `EventEmitter` -/

/-- One registered event listener: the event name, whether it was
registered with `once` (removed after its first invocation), and a tag
identifying the callback. -/
structure Listener where
  event : String
  once : Bool
  tag : Nat

/-- Node `EventEmitter.emit(ev)`: every listener registered for `ev` is
invoked (its tag recorded, in registration order) and listeners
registered with `once` are removed. -/
def emitEvent (ls : List Listener) (ev : String) : List Nat × List Listener :=
  ((ls.filter (fun l => l.event == ev)).map (fun l => l.tag),
   ls.filter (fun l => !(l.event == ev && l.once)))

/-- Emit a sequence of events, accumulating all invocations in order. -/
def emitAll (ls : List Listener) : List String → List Nat × List Listener
  | [] => ([], ls)
  | e :: es =>
    let s := emitEvent ls e
    let r := emitAll s.2 es
    (s.1 ++ r.1, r.2)

/-- `Client.prototype._send` restricted to its callback registration:
with a reply callback present it runs
`this.once('replyTo.' + message.getMeta('id'), callback)`. -/
def sendRegisterReply (ls : List Listener) (id : String) (tag : Nat) :
    List Listener :=
  ls ++ [{ event := "replyTo." ++ id, once := true, tag := tag }]

/-! ## RPC result checking (`_checkRpcResult`, src/help-esb.js
lines 328-334) -/

/-- JavaScript `x !== 'SUCCESS'` is false exactly when `x` is the
string `"SUCCESS"`. -/
def isSuccessVal : Option JVal → Bool
  | some (.str s) => s == "SUCCESS"
  | _ => false

/-- `Client.prototype._checkRpcResult`: reject with
`message.getMeta('reason')` unless `message.getMeta('result')` is
`'SUCCESS'`, in which case resolve with the message. -/
def checkRpcResult (m : Message) : Except (Option JVal) Message :=
  if isSuccessVal (m.getMeta "result") then Except.ok m
  else Except.error (m.getMeta "reason")

/-! ## Session state machine (`login`, `subscribe`, `_reconnect`,
`_resubscribe`, src/help-esb.js lines 77-100 and 280-302)

The externally visible actions (wire requests created and the reconnect
notification) are recorded in an ordered trace. -/

/-- An externally visible client action. -/
inductive ClientEvent where
  | notifyReconnect : ClientEvent
  | issueLogin : String → ClientEvent
  | issueSubscribe : String → ClientEvent
deriving DecidableEq

/-- The session-relevant client state: `_login`, `_authentication`
(outcome handle of the login RPC), `_subscriptions` (insertion-ordered,
as JavaScript object keys are), a supply of fresh outcome handles, and
the action trace. -/
structure ClientState where
  loginName : Option String
  authentication : Option Nat
  subscriptions : List (String × Nat)
  nextOutcome : Nat
  trace : List ClientEvent

/-- `Client.prototype.login`: store the name, issue the login RPC and
store its outcome as the authentication future. -/
def clientLogin (s : ClientState) (name : String) : ClientState :=
  { s with
    loginName := some name
    authentication := some s.nextOutcome
    nextOutcome := s.nextOutcome + 1
    trace := s.trace ++ [ClientEvent.issueLogin name] }

/-- `Client.prototype.subscribe`: if `_subscriptions[group]` is
undefined, record a new outcome there (the chain that issues the
subscribe RPC after authentication); in every case return
`_subscriptions[group]`. -/
def clientSubscribe (s : ClientState) (g : String) : Nat × ClientState :=
  match s.subscriptions.find? (fun p => p.1 == g) with
  | some p => (p.2, s)
  | none =>
    (s.nextOutcome,
     { s with
       subscriptions := s.subscriptions ++ [(g, s.nextOutcome)]
       nextOutcome := s.nextOutcome + 1
       trace := s.trace ++ [ClientEvent.issueSubscribe g] })

/-- `Client.prototype._resubscribe`: clear the authentication and
subscription state; then, only if a login name was previously set, emit
the `socket.reconnect` notification, re-login, and re-subscribe each
given group in order. -/
def clientResubscribe (s : ClientState) (login : Option String)
    (subs : List String) : ClientState :=
  let s1 := { s with authentication := none, subscriptions := [] }
  match login with
  | none => s1
  | some name =>
    let s2 := { s1 with trace := s1.trace ++ [ClientEvent.notifyReconnect] }
    let s3 := clientLogin s2 name
    subs.foldl (fun st g => (clientSubscribe st g).2) s3

/-- `Client.prototype._reconnect`: capture the current subscription
group names (`Object.keys`, in original insertion order) and the stored
login name, rebuild the transport, and run `_resubscribe` with them
once the new transport connects. -/
def clientReconnect (s : ClientState) : ClientState :=
  clientResubscribe s s.loginName (s.subscriptions.map (fun p => p.1))

/-! ## Dispatch engine (`_handlePacket`, src/help-esb.js
lines 378-412) -/

mutual

/-- JavaScript string coercion of a JSON value, as used in
`key + '.' + value`. -/
def jsToString : JVal → String
  | .str s => s
  | .num n => toString n
  | .bool b => if b then "true" else "false"
  | .null => "null"
  | .arr vs => jsToStringList vs
  | .obj _ => "[object Object]"

/-- JavaScript `Array.prototype.toString`: elements joined by `,`. -/
def jsToStringList : List JVal → String
  | [] => ""
  | [v] => jsToString v
  | v :: vs => jsToString v ++ "," ++ jsToStringList vs

end

mutual

/-- The inner `emitKeyValue` of `_handlePacket`: an array value is
mapped over (emitting on each element, collecting whether any was
handled); any other value emits `key + '.' + value` once, handled iff
the registry has a listener for that event.  Returns the emitted
events in order and the handled flag. -/
def emitKeyValue (registry : List String) (key : String) :
    JVal → List String × Bool
  | .arr vs => emitKeyValueList registry key vs
  | v =>
    let ev := key ++ "." ++ jsToString v
    ([ev], registry.contains ev)

/-- `_.any(_.map(value, ...))` over the elements of an array value:
every element is emitted, and the flags are or-ed. -/
def emitKeyValueList (registry : List String) (key : String) :
    List JVal → List String × Bool
  | [] => ([], false)
  | v :: vs =>
    let a := emitKeyValue registry key v
    let b := emitKeyValueList registry key vs
    (a.1 ++ b.1, a.2 || b.2)

end

/-- The dispatch part of `_handlePacket` (lines 395-411): emit `*`,
then for every meta key/value pair run `emitKeyValue`, and if none of
those was handled emit `*.unhandled`.  `registry` is the set of events
for which a listener is registered; the result is the ordered list of
emitted events. -/
def dispatchMessage (registry : List String) (m : Message) : List String :=
  let results := (dedupKeys m.meta).map (fun p => emitKeyValue registry p.1 p.2)
  "*" :: ((results.map (fun r => r.1)).flatten ++
    (if results.any (fun r => r.2) then [] else ["*.unhandled"]))

/-- `_handlePacket` (lines 378-412): a packet that fails JSON parsing
(`parsed = none`), or whose constructed message has no meta `type`,
emits only `type.error`; otherwise the message is dispatched. -/
def handlePacket (registry : List String) (fresh : String)
    (parsed : Option RawMsg) : List String :=
  match parsed with
  | none => ["type.error"]
  | some raw =>
    let m := mkMessage fresh raw
    if m.hasMeta "type" then dispatchMessage registry m
    else ["type.error"]

/-! ## General lemmas about the embedding -/

theorem splitP_nil : splitP [] = ([], []) := rfl

theorem splitP_newline (cs : List Char) :
    splitP ('\n' :: cs) = ([] :: (splitP cs).1, (splitP cs).2) := by
  simp [splitP]

theorem splitP_cons_of_fst_nil {c : Char} (h : c ≠ '\n') {cs : List Char}
    (hfs : (splitP cs).1 = []) :
    splitP (c :: cs) = ([], c :: (splitP cs).2) := by
  simp [splitP, h, hfs]

theorem splitP_cons_of_fst_cons {c : Char} (h : c ≠ '\n') {cs : List Char}
    {f : List Char} {fs : List (List Char)} (hfs : (splitP cs).1 = f :: fs) :
    splitP (c :: cs) = ((c :: f) :: fs, (splitP cs).2) := by
  simp [splitP, h, hfs]

/-- If a split yields no complete segment, the whole input is the
remainder. -/
theorem splitP_of_fst_nil (l : List Char) (h : (splitP l).1 = []) :
    splitP l = ([], l) := by
  induction l with
  | nil => rfl
  | cons c cs ih =>
    by_cases hc : c = '\n'
    · subst hc
      rw [splitP_newline] at h
      simp at h
    · cases hfs : (splitP cs).1 with
      | nil =>
        have h2 := ih hfs
        rw [splitP_cons_of_fst_nil hc hfs, h2]
      | cons f fs =>
        rw [splitP_cons_of_fst_cons hc hfs] at h
        simp at h

theorem splitNL_ne_nil (l : List Char) : splitNL l ≠ [] := by
  cases l with
  | nil => simp [splitNL]
  | cons c cs => by_cases h : c = '\n' <;> simp [splitNL, h]

/-- `splitNL` lists the complete segments of `splitP` followed by the
remainder. -/
theorem splitNL_eq_splitP (l : List Char) :
    splitNL l = (splitP l).1 ++ [(splitP l).2] := by
  induction l with
  | nil => simp [splitNL, splitP]
  | cons c cs ih =>
    by_cases h : c = '\n'
    · subst h
      rw [splitNL, if_pos rfl, splitP_newline, ih]
      simp
    · cases hfs : (splitP cs).1 with
      | nil =>
        rw [splitNL, if_neg h, splitP_cons_of_fst_nil h hfs, ih, hfs]
        simp
      | cons f fs =>
        rw [splitNL, if_neg h, splitP_cons_of_fst_cons h hfs, ih, hfs]
        simp

/-- A buffer with no newline splits into no complete segment and
itself as remainder. -/
theorem splitP_no_newline (l : List Char) (h : '\n' ∉ l) :
    splitP l = ([], l) := by
  induction l with
  | nil => rfl
  | cons c cs ih =>
    have hc : c ≠ '\n' := fun hc => h (hc ▸ List.mem_cons_self c cs)
    have hcs : '\n' ∉ cs := fun hm => h (List.mem_cons_of_mem c hm)
    have h2 := ih hcs
    rw [splitP_cons_of_fst_nil hc (by rw [h2]), h2]

/-- The remainder produced by a split never contains a newline. -/
theorem splitP_remainder_no_newline (l : List Char) :
    '\n' ∉ (splitP l).2 := by
  induction l with
  | nil => simp [splitP]
  | cons c cs ih =>
    by_cases h : c = '\n'
    · subst h
      rw [splitP_newline]
      exact ih
    · cases hfs : (splitP cs).1 with
      | nil =>
        rw [splitP_cons_of_fst_nil h hfs]
        intro hm
        rcases List.mem_cons.mp hm with h1 | h2
        · exact h h1.symm
        · exact ih h2
      | cons f fs =>
        rw [splitP_cons_of_fst_cons h hfs]
        exact ih

/-- `handleData` computes exactly the segments/remainder split of the
buffer followed by the chunk (both branches of the newline test). -/
theorem handleData_eq_splitP (buf data : List Char) :
    handleData buf data = splitP (buf ++ data) := by
  by_cases h : '\n' ∈ buf ++ data
  · have h2 : handleData buf data =
        ((splitNL (buf ++ data)).dropLast, (splitNL (buf ++ data)).getLastD []) := by
      simp only [handleData, if_pos h]
    rw [h2, splitNL_eq_splitP, List.dropLast_concat, List.getLastD_concat]
  · have h2 : handleData buf data = ([], buf ++ data) := by
      simp only [handleData, if_neg h]
    rw [h2, splitP_no_newline (buf ++ data) h]

/-- Splitting a concatenation: the complete segments of `a` come first,
then the split of `a`'s remainder glued onto `b`. -/
theorem splitP_append (a b : List Char) :
    splitP (a ++ b) =
      ((splitP a).1 ++ (splitP ((splitP a).2 ++ b)).1,
        (splitP ((splitP a).2 ++ b)).2) := by
  induction a with
  | nil => simp [splitP]
  | cons c a' ih =>
    by_cases h : c = '\n'
    · subst h
      rw [List.cons_append, splitP_newline, splitP_newline, ih]
      simp
    · cases hfs : (splitP a').1 with
      | nil =>
        have hrem : (splitP a').2 = a' := by rw [splitP_of_fst_nil a' hfs]
        rw [splitP_cons_of_fst_nil h hfs, hrem]
        simp [List.cons_append]
      | cons f fs =>
        have h1 : (splitP (a' ++ b)).1 =
            f :: (fs ++ (splitP ((splitP a').2 ++ b)).1) := by
          rw [ih, hfs]; simp
        have h2 : (splitP (a' ++ b)).2 = (splitP ((splitP a').2 ++ b)).2 := by
          rw [ih]
        rw [List.cons_append, splitP_cons_of_fst_cons h h1,
          splitP_cons_of_fst_cons h hfs, h2]
        simp

/-- Chunk-boundary independence, general form: starting from any
newline-free buffer, feeding chunks one at a time produces the same
packets (in order) and the same final buffer as the split of the
buffer followed by the whole concatenation. -/
theorem processChunks_eq_splitP (chunks : List (List Char)) (buf : List Char)
    (hbuf : '\n' ∉ buf) :
    processChunks buf chunks = splitP (buf ++ chunks.flatten) := by
  induction chunks generalizing buf with
  | nil =>
    simp [processChunks, splitP_no_newline buf hbuf]
  | cons c cs ih =>
    simp only [processChunks, handleData_eq_splitP, List.flatten_cons]
    rw [ih (splitP (buf ++ c)).2 (splitP_remainder_no_newline _)]
    have h := splitP_append (buf ++ c) cs.flatten
    rw [List.append_assoc] at h
    rw [← h]

/-! ## Object lookup lemmas -/

theorem objGet_append (a b : JObj) (k : String) :
    objGet (a ++ b) k = (objGet a k).or (objGet b k) := by
  unfold objGet
  rw [List.find?_append]
  cases a.find? (fun p => p.1 == k) <;> simp

theorem objHas_append (a b : JObj) (k : String) :
    objHas (a ++ b) k = (objHas a k || objHas b k) := by
  unfold objHas
  rw [List.find?_append]
  cases a.find? (fun p => p.1 == k) <;> simp

theorem objGet_eq_none_of_not_has (o : JObj) (k : String)
    (h : objHas o k = false) : objGet o k = none := by
  unfold objHas at h
  unfold objGet
  cases hf : o.find? (fun p => p.1 == k) with
  | none => rfl
  | some p => rw [hf] at h; simp at h

/-- Filtering out entries for a different key does not change lookup. -/
theorem objGet_filter_ne (o : JObj) (k k' : String) (h : k ≠ k') :
    objGet (o.filter (fun p => !(p.1 == k'))) k = objGet o k := by
  induction o with
  | nil => rfl
  | cons p o ih =>
    by_cases hp : p.1 = k'
    · have hmatch : (p.1 == k) = false := by
        rw [beq_eq_false_iff_ne, hp]
        exact fun hk => h hk.symm
      have h1 : (p :: o).filter (fun p => !(p.1 == k')) =
          o.filter (fun p => !(p.1 == k')) := by
        simp [List.filter_cons, hp]
      rw [h1, ih]
      simp [objGet, List.find?_cons, hmatch]
    · have h1 : (p :: o).filter (fun p => !(p.1 == k')) =
          p :: o.filter (fun p => !(p.1 == k')) := by
        simp [List.filter_cons, hp]
      rw [h1]
      simp only [objGet, List.find?_cons]
      cases hm : (p.1 == k) with
      | true => simp
      | false => simp only []; exact ih

/-- Lookup through a left fold of `_.extend`: the last source defining
the key wins (first-match over the reversed source list), with the
accumulator as fallback. -/
theorem objGet_foldl_extendObj (ms : List JObj) (acc : JObj) (k : String) :
    objGet (ms.foldl extendObj acc) k =
      (ms.reverse.findSome? (fun mo => objGet mo k)).or (objGet acc k) := by
  induction ms generalizing acc with
  | nil => simp
  | cons m ms ih =>
    simp only [List.foldl_cons, List.reverse_cons, List.findSome?_append]
    rw [ih (extendObj acc m)]
    unfold extendObj
    rw [objGet_append]
    have hsingle : List.findSome? (fun mo => objGet mo k) [m] = objGet m k := by
      rw [List.findSome?_cons]
      cases objGet m k <;> simp
    rw [hsingle, Option.or_assoc]

/-! ## Message builder lemmas -/

/-- `build` stores `data || {}` as the message data, whatever the
decoration does. -/
theorem build_data (ch : Option String) (fr : String) (d : Option JVal)
    (meta : JObj) : (build ch fr d meta).data = jsOrObj d := by
  cases ch <;> rfl

/-- For keys other than `id` (injected by the constructor) and `from`
(injected by decoration), `build` preserves meta lookup. -/
theorem build_meta_get (ch : Option String) (fr : String) (d : Option JVal)
    (meta : JObj) (k : String) (hid : k ≠ "id") (hfrom : k ≠ "from") :
    objGet (build ch fr d meta).meta k = objGet meta k := by
  have hidb : (("id" : String) == k) = false := by
    simp only [beq_eq_false_iff_ne, ne_eq]
    exact fun hk => hid hk.symm
  have hfromb : (("from" : String) == k) = false := by
    simp only [beq_eq_false_iff_ne, ne_eq]
    exact fun hk => hfrom hk.symm
  cases ch with
  | none =>
    show objGet (extendObj [("id", JVal.str fr)] meta) k = objGet meta k
    unfold extendObj
    rw [objGet_append]
    have h2 : objGet [("id", JVal.str fr)] k = none := by
      unfold objGet
      rw [List.find?_cons]
      simp [hidb]
    rw [h2]
    cases objGet meta k <;> rfl
  | some c =>
    show objGet (extendObj [("id", JVal.str fr)]
      (objSet meta "from" (JVal.str c))) k = objGet meta k
    unfold extendObj objSet
    rw [objGet_append]
    have h2 : objGet [("id", JVal.str fr)] k = none := by
      unfold objGet
      rw [List.find?_cons]
      simp [hidb]
    rw [h2]
    have h3 : objGet (("from", JVal.str c) ::
        meta.filter (fun p => !(p.1 == "from"))) k =
        objGet (meta.filter (fun p => !(p.1 == "from"))) k := by
      unfold objGet
      rw [List.find?_cons]
      simp [hfromb]
    rw [h3, objGet_filter_ne meta k "from" hfrom]
    cases objGet meta k <;> rfl

/-- `extend` is `build` applied to the spec's data-precedence rule and
the left-to-right meta merge. -/
theorem extendM_eq_build (ch : Option String) (fr : String)
    (params : List RawMsg) :
    extendM ch fr params =
      build ch fr (some (specMergeData (params.filterMap (fun p => p.data))))
        ((params.filterMap (fun p => p.meta)).foldl extendObj []) := by
  unfold extendM specMergeData
  by_cases h1 : ((params.filterMap (fun p => p.data)).filter isArray).isEmpty
  · by_cases h2 : ((params.filterMap (fun p => p.data)).filter
        (fun v => !isObjectJS v)).isEmpty
    · simp [h1, h2]
    · simp [h1, h2]
  · simp [h1]

/-! ## Claim theorems -/

/-- C1: Chunk-boundary independence of inbound framing: feeding any
chunk decomposition of a byte sequence to `_handleData` in order,
starting from an empty buffer, processes exactly the same ordered
packets and leaves the same buffer as feeding the whole concatenation
as a single chunk. -/
theorem handleData_chunk_boundary_independence (chunks : List (List Char)) :
    processChunks [] chunks = processChunks [] [chunks.flatten] := by
  rw [processChunks_eq_splitP chunks [] (by simp),
    processChunks_eq_splitP [chunks.flatten] [] (by simp)]
  simp

/-- C2 counterexample: the claim says that when no source's data is an
array and some source's data is a non-object scalar, the last such
scalar is the result's data; but `build`'s `data || {}` turns a falsy
last scalar (here the empty string) into `{}`. -/
theorem extend_last_falsy_scalar_counterexample :
    (extendM none "I" [{ meta := none, data := some (JVal.str "x") },
        { meta := none, data := some (JVal.str "") }]).data = JVal.obj []
    ∧ (extendM none "I" [{ meta := none, data := some (JVal.str "x") },
        { meta := none, data := some (JVal.str "") }]).data ≠ JVal.str "" :=
  ⟨rfl, fun h => JVal.noConfusion h⟩

/-- C2 (amended): `extend` merges meta per key with later sources
overriding earlier ones; its data follows the spec's precedence rule
(arrays concatenated; else last non-object scalar; else objects merged
key by key) except that a falsy final value (empty string, `0`,
`false`, `null`) is replaced by `{}` by `build`'s `data || {}`.  The
three concrete examples from the spec hold. -/
theorem extend_merge_semantics :
    (∀ (ch : Option String) (fr : String) (params : List RawMsg),
      (extendM ch fr params).data =
        jsOrObj (some (specMergeData (params.filterMap (fun p => p.data)))))
    ∧ (∀ (ch : Option String) (fr : String) (params : List RawMsg)
        (k : String), k ≠ "id" → k ≠ "from" →
        objGet (extendM ch fr params).meta k =
          ((params.filterMap (fun p => p.meta)).reverse.findSome?
            (fun mo => objGet mo k)))
    ∧ ((extendM none "I" [{ meta := none, data := some (JVal.arr [JVal.num 1, JVal.num 2]) },
        { meta := none, data := some (JVal.arr [JVal.num 3]) }]).data =
        JVal.arr [JVal.num 1, JVal.num 2, JVal.num 3])
    ∧ (objGet (asObj (extendM none "I" [{ meta := none, data := some (JVal.obj [("a", JVal.num 1)]) },
        { meta := none, data := some (JVal.obj [("b", JVal.num 2)]) }]).data) "a" = some (JVal.num 1)
      ∧ objGet (asObj (extendM none "I" [{ meta := none, data := some (JVal.obj [("a", JVal.num 1)]) },
        { meta := none, data := some (JVal.obj [("b", JVal.num 2)]) }]).data) "b" = some (JVal.num 2)
      ∧ ((asObj (extendM none "I" [{ meta := none, data := some (JVal.obj [("a", JVal.num 1)]) },
        { meta := none, data := some (JVal.obj [("b", JVal.num 2)]) }]).data).map
          (fun p => p.1)).Perm ["a", "b"])
    ∧ ((extendM none "I" [{ meta := none, data := some (JVal.str "x") },
        { meta := none, data := some (JVal.str "y") }]).data = JVal.str "y") := by
  refine ⟨?_, ?_, rfl, ⟨rfl, rfl, by decide⟩, rfl⟩
  · intro ch fr params
    rw [extendM_eq_build, build_data]
  · intro ch fr params k hid hfrom
    rw [extendM_eq_build, build_meta_get _ _ _ _ _ hid hfrom,
      objGet_foldl_extendObj]
    cases (params.filterMap (fun p => p.meta)).reverse.findSome?
      (fun mo => objGet mo k) <;> rfl

/-- C2 witness: the meta merge rule applied at a concrete input. -/
theorem extend_merge_semantics_witness :
    (("group" : String) ≠ "id" ∧ ("group" : String) ≠ "from")
    ∧ objGet (extendM none "W" [{ meta := some [("group", JVal.str "g1")], data := none },
        { meta := some [("group", JVal.str "g2")], data := none }]).meta "group" =
      ((([{ meta := some [("group", JVal.str "g1")], data := none },
        { meta := some [("group", JVal.str "g2")], data := none }] :
          List RawMsg).filterMap (fun p => p.meta)).reverse.findSome?
        (fun mo => objGet mo "group")) :=
  ⟨⟨by decide, by decide⟩,
    extend_merge_semantics.2.1 none "W" _ "group" (by decide) (by decide)⟩

/-- C3 counterexample: a `send` on a client that never logged in does
not auto-login and transmit; `_authPromise()` is an already-rejected
promise, so the call fails with the authentication error. -/
theorem send_without_login_counterexample :
    clientSend (α := Unit) none (mkMessage "X" { meta := none, data := none }) =
      Except.error "Attempted to send data through the ESB before authenticating"
    ∧ clientSend (α := Unit) none (mkMessage "X" { meta := none, data := none }) ≠
      Except.ok (mkMessage "X" { meta := none, data := none }) :=
  ⟨rfl, fun h => Except.noConfusion h⟩

/-- C3 (amended): `send` awaits `_authPromise()`, which is the stored
authentication future when `login` was called and an already-rejected
promise otherwise; so with no login ever called every `send` rejects
with the authentication error and transmits nothing, while with a
login in place the envelope is transmitted. -/
theorem send_auth_gate {α : Type} (envelope : Message) (a : α) :
    clientSend (none : Option α) envelope =
      Except.error "Attempted to send data through the ESB before authenticating"
    ∧ clientSend (some a) envelope = Except.ok envelope :=
  ⟨rfl, rfl⟩

/-- C5 counterexample: a reply whose `meta.result` is neither `SUCCESS`
nor `FAILURE` (here `PENDING`), or which has no result at all, is not
rejected with any distinguished protocol-violation error:
`_checkRpcResult` rejects with the reply's `meta.reason` (possibly
undefined), exactly as in the `FAILURE` case. -/
theorem checkRpcResult_no_taxonomy_error :
    checkRpcResult (mkMessage "P" { meta := some [("result", JVal.str "PENDING"),
        ("reason", JVal.str "boom")], data := none }) =
      Except.error (some (JVal.str "boom"))
    ∧ checkRpcResult (mkMessage "N" { meta := some [], data := none }) =
      Except.error none :=
  ⟨rfl, rfl⟩

/-- C5 (amended): `_checkRpcResult` fulfills the outcome with the reply
message when `meta.result` is `SUCCESS`, and rejects with the reply's
`meta.reason` in every other case — a `FAILURE` result, any other
result value, or a missing result. -/
theorem checkRpcResult_policy (m : Message) :
    (m.getMeta "result" = some (JVal.str "SUCCESS") →
      checkRpcResult m = Except.ok m)
    ∧ (m.getMeta "result" = some (JVal.str "FAILURE") →
      checkRpcResult m = Except.error (m.getMeta "reason"))
    ∧ (isSuccessVal (m.getMeta "result") = false →
      checkRpcResult m = Except.error (m.getMeta "reason")) := by
  refine ⟨?_, ?_, ?_⟩
  · intro h
    unfold checkRpcResult
    rw [h]
    rfl
  · intro h
    unfold checkRpcResult
    rw [h]
    rfl
  · intro h
    unfold checkRpcResult
    rw [h]
    rfl

/-- C5 witness: the policy applied to concrete success and failure
replies. -/
theorem checkRpcResult_policy_witness :
    ((mkMessage "S" { meta := some [("result", JVal.str "SUCCESS")], data := none }).getMeta
        "result" = some (JVal.str "SUCCESS")
      ∧ checkRpcResult (mkMessage "S" { meta := some [("result", JVal.str "SUCCESS")], data := none }) =
        Except.ok (mkMessage "S" { meta := some [("result", JVal.str "SUCCESS")], data := none }))
    ∧ ((mkMessage "F" { meta := some [("result", JVal.str "FAILURE"),
          ("reason", JVal.str "boom")], data := none }).getMeta "result" =
        some (JVal.str "FAILURE")
      ∧ checkRpcResult (mkMessage "F" { meta := some [("result", JVal.str "FAILURE"),
          ("reason", JVal.str "boom")], data := none }) =
        Except.error ((mkMessage "F" { meta := some [("result", JVal.str "FAILURE"),
          ("reason", JVal.str "boom")], data := none }).getMeta "reason")) :=
  ⟨⟨rfl, (checkRpcResult_policy _).1 rfl⟩,
   ⟨rfl, (checkRpcResult_policy _).2.1 rfl⟩⟩

/-! ## Emitter lemmas -/

theorem emitAll_nil (es : List String) : emitAll [] es = ([], []) := by
  induction es with
  | nil => rfl
  | cons e es ih => simp [emitAll, emitEvent, ih]

/-- C4 counterexample: a reply callback registered by `_send` is
invoked once for the first correlated reply and not again for a second
one, because `_send` registers it with `once`. -/
theorem send_reply_callback_counterexample :
    (emitAll (sendRegisterReply [] "m1" 7) ["replyTo.m1", "replyTo.m1"]).1.count 7 = 1
    ∧ (emitAll (sendRegisterReply [] "m1" 7) ["replyTo.m1", "replyTo.m1"]).1.count 7 ≠ 2 :=
  ⟨rfl, by decide⟩

/-- C4 (amended): the reply callback is registered with
`once`-semantics: across any positive number of replies correlated to
the sent message id it is invoked exactly once, and the listener is
removed from the registry by the first reply. -/
theorem send_reply_callback_single_shot (id : String) (tag : Nat) (n : Nat) :
    (emitAll (sendRegisterReply [] id tag)
        (List.replicate (n + 1) ("replyTo." ++ id))).1.count tag = 1
    ∧ (emitAll (sendRegisterReply [] id tag)
        (List.replicate (n + 1) ("replyTo." ++ id))).2 = [] := by
  have hstep : emitAll (sendRegisterReply [] id tag)
      (List.replicate (n + 1) ("replyTo." ++ id)) = ([tag], []) := by
    rw [List.replicate_succ]
    show (let s := emitEvent (sendRegisterReply [] id tag) ("replyTo." ++ id)
          let r := emitAll s.2 (List.replicate n ("replyTo." ++ id))
          (s.1 ++ r.1, r.2)) = ([tag], [])
    have h1 : emitEvent (sendRegisterReply [] id tag) ("replyTo." ++ id) =
        ([tag], []) := by
      simp [emitEvent, sendRegisterReply, List.filter]
    simp [h1, emitAll_nil]
  rw [hstep]
  exact ⟨by simp, rfl⟩

/-! ## Session state machine theorems -/

/-- C6: `subscribe` is idempotent per group: a second `subscribe` for
the same group returns the outcome of the first and leaves the state
(including the request trace) unchanged, and when the group was new,
the two calls together issue exactly one subscribe request. -/
theorem subscribe_idempotent (s : ClientState) (g : String) :
    (clientSubscribe (clientSubscribe s g).2 g).1 = (clientSubscribe s g).1
    ∧ (clientSubscribe (clientSubscribe s g).2 g).2 = (clientSubscribe s g).2
    ∧ (s.subscriptions.find? (fun p => p.1 == g) = none →
        ((clientSubscribe s g).2.trace = s.trace ++ [ClientEvent.issueSubscribe g]
        ∧ (clientSubscribe (clientSubscribe s g).2 g).2.trace
            = s.trace ++ [ClientEvent.issueSubscribe g])) := by
  cases hfind : s.subscriptions.find? (fun p => p.1 == g) with
  | some p =>
    have h1 : clientSubscribe s g = (p.2, s) := by
      unfold clientSubscribe
      rw [hfind]
    refine ⟨?_, ?_, ?_⟩
    · rw [h1]
      show (clientSubscribe s g).1 = p.2
      rw [h1]
    · rw [h1]
      show (clientSubscribe s g).2 = s
      rw [h1]
    · intro hnone
      exact Option.noConfusion hnone
  | none =>
    have h1 : clientSubscribe s g = (s.nextOutcome,
        { s with
          subscriptions := s.subscriptions ++ [(g, s.nextOutcome)]
          nextOutcome := s.nextOutcome + 1
          trace := s.trace ++ [ClientEvent.issueSubscribe g] }) := by
      unfold clientSubscribe
      rw [hfind]
    have hfind2 : (s.subscriptions ++ [(g, s.nextOutcome)]).find?
        (fun p => p.1 == g) = some (g, s.nextOutcome) := by
      rw [List.find?_append, hfind]
      simp [List.find?_cons]
    have h2 : clientSubscribe (clientSubscribe s g).2 g =
        (s.nextOutcome, (clientSubscribe s g).2) := by
      rw [h1]
      unfold clientSubscribe
      simp only [hfind2]
    refine ⟨?_, ?_, ?_⟩
    · rw [h2, h1]
    · rw [h2]
    · intro _
      refine ⟨by rw [h1], ?_⟩
      rw [h2, h1]

/-- C6 witness: two subscribes on a fresh client. -/
theorem subscribe_idempotent_witness :
    ((⟨none, none, [], 0, []⟩ : ClientState).subscriptions.find?
        (fun p => p.1 == "grp") = none)
    ∧ ((clientSubscribe ⟨none, none, [], 0, []⟩ "grp").2.trace
          = [ClientEvent.issueSubscribe "grp"]
      ∧ (clientSubscribe (clientSubscribe ⟨none, none, [], 0, []⟩ "grp").2 "grp").2.trace
          = [ClientEvent.issueSubscribe "grp"]) :=
  ⟨rfl, (subscribe_idempotent ⟨none, none, [], 0, []⟩ "grp").2.2 rfl⟩

/-- Folding `subscribe` over groups that are all new and mutually
distinct issues one subscribe request per group, in order. -/
theorem foldl_subscribe_trace (gs : List String) (st : ClientState)
    (hnodup : gs.Nodup)
    (hnone : ∀ g ∈ gs, st.subscriptions.find? (fun p => p.1 == g) = none) :
    (gs.foldl (fun s g => (clientSubscribe s g).2) st).trace =
      st.trace ++ gs.map ClientEvent.issueSubscribe := by
  induction gs generalizing st with
  | nil => simp
  | cons g gs ih =>
    have hg := hnone g (List.mem_cons_self g gs)
    have h1 : clientSubscribe st g = (st.nextOutcome,
        { st with
          subscriptions := st.subscriptions ++ [(g, st.nextOutcome)]
          nextOutcome := st.nextOutcome + 1
          trace := st.trace ++ [ClientEvent.issueSubscribe g] }) := by
      unfold clientSubscribe
      rw [hg]
    have hnone2 : ∀ g' ∈ gs,
        (st.subscriptions ++ [(g, st.nextOutcome)]).find?
          (fun p => p.1 == g') = none := by
      intro g' hg'
      rw [List.find?_append, hnone g' (List.mem_cons_of_mem g hg')]
      have hne : (g == g') = false := by
        rw [beq_eq_false_iff_ne]
        intro hEq
        subst hEq
        exact (List.nodup_cons.mp hnodup).1 hg'
      simp [List.find?_cons, hne]
    simp only [List.foldl_cons, h1]
    rw [ih _ (List.nodup_cons.mp hnodup).2 hnone2]
    simp

/-- C8: after a transport closure not initiated by `close`, once the
new transport connects and a login name was stored, the client emits
the reconnect notification first, then re-issues `login` with the same
stored name, then re-issues `subscribe` for every previously held group
in the original insertion order. -/
theorem reconnect_replay_order (s : ClientState) (name : String)
    (hlogin : s.loginName = some name)
    (hnodup : (s.subscriptions.map (fun p => p.1)).Nodup) :
    (clientReconnect s).trace =
      s.trace ++ [ClientEvent.notifyReconnect, ClientEvent.issueLogin name]
        ++ (s.subscriptions.map (fun p => p.1)).map ClientEvent.issueSubscribe := by
  have hres : clientReconnect s = (s.subscriptions.map (fun p => p.1)).foldl
      (fun st g => (clientSubscribe st g).2)
      (clientLogin { s with
        authentication := none
        subscriptions := []
        trace := s.trace ++ [ClientEvent.notifyReconnect] } name) := by
    unfold clientReconnect clientResubscribe
    rw [hlogin]
  rw [hres, foldl_subscribe_trace (s.subscriptions.map (fun p => p.1))
    (clientLogin { s with
      authentication := none
      subscriptions := []
      trace := s.trace ++ [ClientEvent.notifyReconnect] } name) hnodup
    (fun g _ => rfl)]
  simp [clientLogin]

/-- C8 witness: a client with login `me` and subscriptions `a`, `b`. -/
theorem reconnect_replay_order_witness :
    ((⟨some "me", some 0, [("a", 1), ("b", 2)], 3, []⟩ : ClientState).loginName
        = some "me")
    ∧ ((⟨some "me", some 0, [("a", 1), ("b", 2)], 3, []⟩ : ClientState).subscriptions.map
        (fun p => p.1)).Nodup
    ∧ (clientReconnect ⟨some "me", some 0, [("a", 1), ("b", 2)], 3, []⟩).trace =
        [ClientEvent.notifyReconnect, ClientEvent.issueLogin "me",
          ClientEvent.issueSubscribe "a", ClientEvent.issueSubscribe "b"] :=
  ⟨rfl, by decide,
    reconnect_replay_order ⟨some "me", some 0, [("a", 1), ("b", 2)], 3, []⟩ "me" rfl
      (by decide)⟩

/-! ## Message constructor theorems -/

/-- C9 counterexample: the constructor keeps an `id` supplied by the
input meta even when it is the empty string, so the constructed message
does not have a non-empty `id` for every input structure. -/
theorem message_empty_id_counterexample :
    (mkMessage "FRESH" { meta := some [("id", JVal.str "")], data := none }).getMeta "id"
      = some (JVal.str "")
    ∧ (mkMessage "FRESH" { meta := some [("id", JVal.str "")], data := none }).getMeta "id"
      ≠ some (JVal.str "FRESH") := by
  refine ⟨rfl, ?_⟩
  intro h
  have h2 : some (JVal.str "") = some (JVal.str "FRESH") := h
  injection h2 with h3
  injection h3 with h4
  exact absurd h4 (by decide)

/-- C9 (amended): every constructed `Message` has an `id` key in meta;
when the input meta carries no `id`, its value is the freshly generated
(non-empty) identifier; and `data` defaults to `{}` when the input has
no data. -/
theorem message_constructor_invariant (fresh : String) (m : RawMsg)
    (hf : fresh ≠ "") :
    (mkMessage fresh m).hasMeta "id" = true
    ∧ (objHas (m.meta.getD []) "id" = false →
        ((mkMessage fresh m).getMeta "id" = some (JVal.str fresh) ∧ fresh ≠ ""))
    ∧ (m.data = none → (mkMessage fresh m).data = JVal.obj []) := by
  refine ⟨?_, ?_, ?_⟩
  · show objHas (extendObj [("id", JVal.str fresh)] (m.meta.getD [])) "id" = true
    unfold extendObj
    rw [objHas_append]
    have h1 : objHas [("id", JVal.str fresh)] "id" = true := rfl
    rw [h1, Bool.or_true]
  · intro h
    refine ⟨?_, hf⟩
    show objGet (extendObj [("id", JVal.str fresh)] (m.meta.getD [])) "id"
      = some (JVal.str fresh)
    unfold extendObj
    rw [objGet_append, objGet_eq_none_of_not_has _ _ h]
    rfl
  · intro h
    show m.data.getD (JVal.obj []) = JVal.obj []
    rw [h]
    rfl

/-- C9 witness: constructing from an input with no meta and no data. -/
theorem message_constructor_invariant_witness :
    (("u1" : String) ≠ "")
    ∧ (objHas (((none : Option JObj)).getD []) "id" = false)
    ∧ ((mkMessage "u1" { meta := none, data := none }).getMeta "id"
        = some (JVal.str "u1") ∧ ("u1" : String) ≠ "")
    ∧ (mkMessage "u1" { meta := none, data := none }).data = JVal.obj [] :=
  ⟨by decide, rfl,
    (message_constructor_invariant "u1" { meta := none, data := none } (by decide)).2.1 rfl,
    (message_constructor_invariant "u1" { meta := none, data := none } (by decide)).2.2 rfl⟩

/-! ## Dispatch theorems -/

theorem emitKeyValue_not_array (registry : List String) (k : String) {v : JVal}
    (h : isArray v = false) :
    emitKeyValue registry k v =
      ([k ++ "." ++ jsToString v], registry.contains (k ++ "." ++ jsToString v)) := by
  cases v with
  | arr vs => simp [isArray] at h
  | str s => rfl
  | num n => rfl
  | bool b => rfl
  | null => rfl
  | obj o => rfl

theorem emitKeyValueList_mem_of_mem (registry : List String) (k : String)
    {v : JVal} {vs : List JVal} (hv : v ∈ vs) {e : String}
    (he : e ∈ (emitKeyValue registry k v).1) :
    e ∈ (emitKeyValueList registry k vs).1 := by
  induction vs with
  | nil => cases hv
  | cons w ws ih =>
    rcases List.mem_cons.mp hv with h | h
    · subst h
      simp only [emitKeyValueList, List.mem_append]
      exact Or.inl he
    · simp only [emitKeyValueList, List.mem_append]
      exact Or.inr (ih h)

mutual

/-- If an event emitted for a meta value has a registered listener,
`emitKeyValue` reports the value as handled. -/
theorem emitKeyValue_handled_of_mem (registry : List String) (k : String) :
    ∀ (v : JVal) (e : String), e ∈ (emitKeyValue registry k v).1 →
      registry.contains e = true → (emitKeyValue registry k v).2 = true
  | JVal.arr vs, e, he, hr => by
    have h2 := emitKeyValueList_handled_of_mem registry k vs e
      (by simpa [emitKeyValue] using he) hr
    simpa [emitKeyValue] using h2
  | JVal.str s, e, he, hr => by
    simp only [emitKeyValue, List.mem_singleton] at he
    subst he
    simpa [emitKeyValue] using hr
  | JVal.num n, e, he, hr => by
    simp only [emitKeyValue, List.mem_singleton] at he
    subst he
    simpa [emitKeyValue] using hr
  | JVal.bool b, e, he, hr => by
    simp only [emitKeyValue, List.mem_singleton] at he
    subst he
    simpa [emitKeyValue] using hr
  | JVal.null, e, he, hr => by
    simp only [emitKeyValue, List.mem_singleton] at he
    subst he
    simpa [emitKeyValue] using hr
  | JVal.obj o, e, he, hr => by
    simp only [emitKeyValue, List.mem_singleton] at he
    subst he
    simpa [emitKeyValue] using hr

/-- List version of `emitKeyValue_handled_of_mem`. -/
theorem emitKeyValueList_handled_of_mem (registry : List String) (k : String) :
    ∀ (vs : List JVal) (e : String), e ∈ (emitKeyValueList registry k vs).1 →
      registry.contains e = true → (emitKeyValueList registry k vs).2 = true
  | [], e, he, _ => by simp [emitKeyValueList] at he
  | v :: vs, e, he, hr => by
    simp only [emitKeyValueList, List.mem_append] at he
    rcases he with h | h
    · have h2 := emitKeyValue_handled_of_mem registry k v e h hr
      simp only [emitKeyValueList]
      rw [h2]
      rfl
    · have h2 := emitKeyValueList_handled_of_mem registry k vs e h hr
      simp only [emitKeyValueList]
      rw [h2]
      simp

end

/-- C7: dispatch fan-out and unhandled fallback: every meta key with a
non-array value emits the event `key + '.' + value`; every meta key
with an array value emits `key + '.' + element` for each element; and
whenever an `*.unhandled` listener is registered and no key-specific
event of the message was handled, the `*.unhandled` listener fires
exactly once.  The spec's concrete example holds: meta
`{type: sendMessage, group: [a, b]}` triggers `group.a` and `group.b`,
and with only an `*.unhandled` listener registered that listener fires
exactly once. -/
theorem dispatch_fanout_unhandled :
    (∀ (registry : List String) (m : Message) (k : String) (v : JVal),
      (k, v) ∈ dedupKeys m.meta → isArray v = false →
      (k ++ "." ++ jsToString v) ∈ dispatchMessage registry m)
    ∧ (∀ (registry : List String) (m : Message) (k : String)
        (vs : List JVal) (v : JVal),
      (k, JVal.arr vs) ∈ dedupKeys m.meta → v ∈ vs → isArray v = false →
      (k ++ "." ++ jsToString v) ∈ dispatchMessage registry m)
    ∧ (∀ (registry : List String) (m : Message),
      registry.contains "*.unhandled" = true →
      ((dedupKeys m.meta).map (fun p => emitKeyValue registry p.1 p.2)).any
        (fun r => r.2) = false →
      (dispatchMessage registry m).count "*.unhandled" = 1)
    ∧ ("group.a" ∈ dispatchMessage ["group.a", "group.b"]
        (mkMessage "I" { meta := some [("type", JVal.str "sendMessage"),
          ("group", JVal.arr [JVal.str "a", JVal.str "b"])], data := none })
      ∧ "group.b" ∈ dispatchMessage ["group.a", "group.b"]
        (mkMessage "I" { meta := some [("type", JVal.str "sendMessage"),
          ("group", JVal.arr [JVal.str "a", JVal.str "b"])], data := none }))
    ∧ (dispatchMessage ["*.unhandled"]
        (mkMessage "I" { meta := some [("type", JVal.str "sendMessage"),
          ("group", JVal.arr [JVal.str "a", JVal.str "b"])], data := none })).count
        "*.unhandled" = 1 := by
  refine ⟨?_, ?_, ?_, ⟨by decide, by decide⟩, rfl⟩
  · intro registry m k v hmem hnotarr
    have h1 : (k ++ "." ++ jsToString v) ∈ (emitKeyValue registry k v).1 := by
      rw [emitKeyValue_not_array registry k hnotarr]
      exact List.mem_singleton_self _
    have h2 : (emitKeyValue registry k v).1 ∈
        ((dedupKeys m.meta).map (fun p => emitKeyValue registry p.1 p.2)).map
          (fun r => r.1) :=
      List.mem_map_of_mem _ (List.mem_map_of_mem _ hmem)
    have h3 : (k ++ "." ++ jsToString v) ∈
        (((dedupKeys m.meta).map (fun p => emitKeyValue registry p.1 p.2)).map
          (fun r => r.1)).flatten :=
      List.mem_flatten.mpr ⟨_, h2, h1⟩
    exact List.mem_cons_of_mem _ (List.mem_append_left _ h3)
  · intro registry m k vs v hmem hv hnotarr
    have h1 : (k ++ "." ++ jsToString v) ∈ (emitKeyValue registry k v).1 := by
      rw [emitKeyValue_not_array registry k hnotarr]
      exact List.mem_singleton_self _
    have h1b : (k ++ "." ++ jsToString v) ∈
        (emitKeyValue registry k (JVal.arr vs)).1 := by
      show (k ++ "." ++ jsToString v) ∈ (emitKeyValueList registry k vs).1
      exact emitKeyValueList_mem_of_mem registry k hv h1
    have h2 : (emitKeyValue registry k (JVal.arr vs)).1 ∈
        ((dedupKeys m.meta).map (fun p => emitKeyValue registry p.1 p.2)).map
          (fun r => r.1) :=
      List.mem_map_of_mem _ (List.mem_map_of_mem _ hmem)
    have h3 : (k ++ "." ++ jsToString v) ∈
        (((dedupKeys m.meta).map (fun p => emitKeyValue registry p.1 p.2)).map
          (fun r => r.1)).flatten :=
      List.mem_flatten.mpr ⟨_, h2, h1b⟩
    exact List.mem_cons_of_mem _ (List.mem_append_left _ h3)
  · intro registry m hreg hany
    have hdisp : dispatchMessage registry m =
        "*" :: ((((dedupKeys m.meta).map
            (fun p => emitKeyValue registry p.1 p.2)).map (fun r => r.1)).flatten
          ++ ["*.unhandled"]) := by
      simp only [dispatchMessage, hany]
      simp
    rw [hdisp]
    have hnotflat : "*.unhandled" ∉
        (((dedupKeys m.meta).map (fun p => emitKeyValue registry p.1 p.2)).map
          (fun r => r.1)).flatten := by
      intro hmem
      rcases List.mem_flatten.mp hmem with ⟨l, hl, hel⟩
      rcases List.mem_map.mp hl with ⟨r, hr, hrl⟩
      rcases List.mem_map.mp hr with ⟨p, hp, hpr⟩
      have hhandled : (emitKeyValue registry p.1 p.2).2 = true := by
        apply emitKeyValue_handled_of_mem registry p.1 p.2 "*.unhandled" _ hreg
        rw [hpr, hrl]
        exact hel
      have : ((dedupKeys m.meta).map
          (fun p => emitKeyValue registry p.1 p.2)).any (fun r => r.2) = true := by
        rw [List.any_eq_true]
        exact ⟨emitKeyValue registry p.1 p.2, List.mem_map_of_mem _ hp, hhandled⟩
      rw [this] at hany
      cases hany
    rw [List.count_cons]
    have hne : (("*" : String) == "*.unhandled") = false := by decide
    rw [hne]
    rw [List.count_append]
    rw [List.count_eq_zero.mpr hnotflat]
    rfl

/-- C7 witness: the scalar fan-out rule applied at a concrete message
and registry. -/
theorem dispatch_fanout_unhandled_witness :
    (("type", JVal.str "x") ∈ dedupKeys
        (mkMessage "I" { meta := some [("type", JVal.str "x")], data := none }).meta
      ∧ isArray (JVal.str "x") = false)
    ∧ ("type" ++ "." ++ jsToString (JVal.str "x")) ∈ dispatchMessage []
        (mkMessage "I" { meta := some [("type", JVal.str "x")], data := none }) :=
  ⟨⟨List.Mem.head _, rfl⟩,
    dispatch_fanout_unhandled.1 []
      (mkMessage "I" { meta := some [("type", JVal.str "x")], data := none })
      "type" (JVal.str "x") (List.Mem.head _) rfl⟩

/-- C10: an inbound frame that parses as JSON but whose meta carries no
`type` key only emits `type.error`: the message is not dispatched to
any key-specific listener, nor to the `*` wildcard, nor to the
`*.unhandled` fallback. -/
theorem missing_type_not_dispatched (registry : List String) (fresh : String)
    (raw : RawMsg) (h : objHas (raw.meta.getD []) "type" = false) :
    handlePacket registry fresh (some raw) = ["type.error"]
    ∧ "*" ∉ handlePacket registry fresh (some raw)
    ∧ "*.unhandled" ∉ handlePacket registry fresh (some raw) := by
  have htype : (mkMessage fresh raw).hasMeta "type" = false := by
    show objHas (extendObj [("id", JVal.str fresh)] (raw.meta.getD [])) "type" = false
    unfold extendObj
    rw [objHas_append, h]
    rfl
  have heq : handlePacket registry fresh (some raw) = ["type.error"] := by
    unfold handlePacket
    simp [htype]
  exact ⟨heq, by rw [heq]; decide, by rw [heq]; decide⟩

/-- C10 witness: a packet with meta `{group: g}` and no `type`. -/
theorem missing_type_not_dispatched_witness :
    objHas (((some [("group", JVal.str "g")] : Option JObj)).getD []) "type" = false
    ∧ handlePacket [] "I"
        (some { meta := some [("group", JVal.str "g")], data := some (JVal.obj []) })
        = ["type.error"] :=
  ⟨rfl, (missing_type_not_dispatched [] "I"
    { meta := some [("group", JVal.str "g")], data := some (JVal.obj []) } rfl).1⟩

/-- C1 witness: chunk-boundary independence at a concrete split of
`"ab" ++ "c\nd" ++ "\n"`. -/
theorem handleData_chunk_boundary_independence_witness :
    processChunks [] ["ab".toList, "c\nd".toList, "\n".toList] =
      processChunks [] [(["ab".toList, "c\nd".toList, "\n".toList] :
        List (List Char)).flatten] :=
  handleData_chunk_boundary_independence ["ab".toList, "c\nd".toList, "\n".toList]

/-- C3 witness: the authentication gate at a concrete envelope. -/
theorem send_auth_gate_witness :
    clientSend (none : Option Unit) (mkMessage "E" { meta := none, data := none }) =
      Except.error "Attempted to send data through the ESB before authenticating"
    ∧ clientSend (some ()) (mkMessage "E" { meta := none, data := none }) =
      Except.ok (mkMessage "E" { meta := none, data := none }) :=
  send_auth_gate (mkMessage "E" { meta := none, data := none }) ()

/-- C4 witness: the single-shot rule at two arriving replies. -/
theorem send_reply_callback_single_shot_witness :
    (emitAll (sendRegisterReply [] "m1" 7)
        (List.replicate 2 ("replyTo." ++ "m1"))).1.count 7 = 1
    ∧ (emitAll (sendRegisterReply [] "m1" 7)
        (List.replicate 2 ("replyTo." ++ "m1"))).2 = [] :=
  send_reply_callback_single_shot "m1" 7 1

end HelpEsb
